import Mathlib

/-!
Shallow embedding of `src/lib/usr/clib/fib/trie.c` (CNDP IPv6 DIR24-8 trie),
together with the external helpers it uses (RIB operations, entry accessors)
which live in headers outside the provided sources and are modelled from the
specification.  Machine integers are modelled as `Nat` with explicit
reductions modulo the entry width (or modulo 2^8 / 2^32) exactly where the C
code truncates.  The two packed arrays (`tbl24`, the `tbl8` arena) are
modelled as total functions `Nat → Nat`; a ranged `write_to_dp` becomes a
single guarded function update, mirroring the store loop extensionally.
-/

/-- EXT flag: low bit of an entry (`TRIE_EXT_ENT` in `private_fib6.h`,
per the spec, section 6: "Low bit = EXT"). -/
def TRIE_EXT_ENT : Nat := 1

/-- Entries per tbl8 page (`TRIE_TBL8_GRP_NUM_ENT`): 256. -/
def TRIE_TBL8_GRP_NUM_ENT : Nat := 256

/-- Number of tbl24 entries: 2^24. -/
def TRIE_TBL24_NUM_ENT : Nat := 2 ^ 24

/-- errno value EINVAL (22). -/
def EINVAL : Int := 22

/-- errno value ENOENT (2). -/
def ENOENT : Int := 2

/-- errno value ENOSPC (28). -/
def ENOSPC : Int := 28

/-- An IPv6 address: a big-endian list of 16 bytes, each < 256. -/
abbrev IpAddr : Type := List Nat

/-- Read byte `i` of an address (out-of-range reads give 0; all uses are
in-range for 16-byte addresses). -/
def ipGet (ip : IpAddr) (i : Nat) : Nat := ip.getD i 0

/-- Big-endian value of a byte list: byte 0 is most significant. -/
def toNatBE (ip : List Nat) : Nat := ip.foldl (fun a b => a * 256 + b) 0

/-- Modelled from the spec: `bits_in_nh(nh_sz)` from `private_fib6.h`;
the entry width in bits is `8·W` where `W = 1 << nh_sz` bytes
(`nh_sz` is the enum value 1, 2 or 3 for 2-, 4- and 8-byte entries). -/
def bits_in_nh (nh_sz : Nat) : Nat := 8 * (1 <<< nh_sz)

/-- Modelled from the spec: `get_max_nh(nh_sz)` from `private_fib6.h`;
section 6: "Maximum representable next-hop for width W is
`(1 << (8·W − 1)) − 1`". -/
def get_max_nh (nh_sz : Nat) : Nat := (1 <<< (bits_in_nh nh_sz - 1)) - 1

/-- Modulus for a stored entry of width `nh_sz`: entries are truncated to
`8·W` bits on every store (the C casts to uint16/uint32/uint64). -/
def entMod (nh_sz : Nat) : Nat := 2 ^ bits_in_nh nh_sz

/-- The dataplane table of `trie.c` (`struct cne_trie_tbl`).  The two packed
arrays and the pool are total functions from index to stored value. -/
structure TrieTbl where
  nh_sz : Nat
  def_nh : Nat
  number_tbl8s : Nat
  tbl24 : Nat → Nat
  tbl8 : Nat → Nat
  tbl8_pool : Nat → Nat
  tbl8_pool_pos : Nat
  rsvd_tbl8s : Nat

/-- A pointer to one entry of one of the two packed arrays
(the `void *` entry pointers of `trie.c`). -/
inductive TblPtr where
  | t24 (off : Nat)
  | t8 (off : Nat)
deriving DecidableEq

/-- Pointer arithmetic `get_tbl_p_by_idx(base, idx, nh_sz)`: advance a base
pointer by `idx` entries (entry-sized steps). -/
def ptrAdd (p : TblPtr) (idx : Nat) : TblPtr :=
  match p with
  | .t24 off => .t24 (off + idx)
  | .t8 off => .t8 (off + idx)

/-- Read the entry a pointer designates (`get_val_by_p`, trie.c:237). -/
def get_val_by_p (dp : TrieTbl) (p : TblPtr) : Nat :=
  match p with
  | .t24 off => dp.tbl24 off
  | .t8 off => dp.tbl8 off

/-- Guarded range update of a table function: the extensional effect of the
store loop in `write_to_dp` (trie.c:95): write `val` to `n` consecutive
entries starting at `idx`. -/
def writeRange (f : Nat → Nat) (idx val n : Nat) : Nat → Nat :=
  fun j => if idx ≤ j ∧ j < idx + n then val else f j

/-- The ranged store `write_to_dp(ptr, val, size, n)` (trie.c:95): writes the
low `8·W` bits of `val` to `n` consecutive entries. -/
def write_to_dp (dp : TrieTbl) (p : TblPtr) (val : Nat) (n : Nat) : TrieTbl :=
  match p with
  | .t24 off => { dp with tbl24 := writeRange dp.tbl24 off (val % entMod dp.nh_sz) n }
  | .t8 off => { dp with tbl8 := writeRange dp.tbl8 off (val % entMod dp.nh_sz) n }

/-- Pool initialisation `tbl8_pool_init` (trie.c:119): all indices free in
natural order, cursor at zero. -/
def tbl8_pool_init (dp : TrieTbl) : TrieTbl :=
  { dp with tbl8_pool := fun i => i, tbl8_pool_pos := 0 }

/-- Pop a free tbl8 index (`tbl8_get`, trie.c:134); `none` models the
`-ENOSPC` return when the pool is exhausted. -/
def tbl8_get (dp : TrieTbl) : TrieTbl × Option Nat :=
  if dp.tbl8_pool_pos = dp.number_tbl8s then (dp, none)
  else ({ dp with tbl8_pool_pos := dp.tbl8_pool_pos + 1 }, some (dp.tbl8_pool dp.tbl8_pool_pos))

/-- Push a tbl8 index back on the free stack (`tbl8_put`, trie.c:148):
`dp->tbl8_pool[--dp->tbl8_pool_pos] = tbl8_ind`. -/
def tbl8_put (dp : TrieTbl) (tbl8_ind : Nat) : TrieTbl :=
  { dp with
    tbl8_pool := fun j => if j = dp.tbl8_pool_pos - 1 then tbl8_ind else dp.tbl8_pool j,
    tbl8_pool_pos := dp.tbl8_pool_pos - 1 }

/-- Allocate a page and fill its 256 entries with `nh` (`tbl8_alloc`,
trie.c:154).  `none` propagates pool exhaustion. -/
def tbl8_alloc (dp : TrieTbl) (nh : Nat) : TrieTbl × Option Nat :=
  match tbl8_get dp with
  | (dp1, none) => (dp1, none)
  | (dp1, some tbl8_idx) =>
    (write_to_dp dp1 (.t8 (tbl8_idx * TRIE_TBL8_GRP_NUM_ENT)) nh TRIE_TBL8_GRP_NUM_ENT,
      some tbl8_idx)

/-- The uniformity scan of `tbl8_recycle` (trie.c loop `for i = 1; i < 256`):
true when entries 1..255 of page `tbl8_idx` all equal `nh`. -/
def tbl8_all_eq (dp : TrieTbl) (tbl8_idx nh : Nat) : Bool :=
  (List.range' 1 (TRIE_TBL8_GRP_NUM_ENT - 1)).all
    (fun i => dp.tbl8 (tbl8_idx * TRIE_TBL8_GRP_NUM_ENT + i) == nh)

/-- Page recycling `tbl8_recycle(dp, par, tbl8_idx)` (trie.c:169).  The C
function writes the collapsed terminal through the parent pointer `par`,
which at one call site (`write_edge`, trie.c:335) is a pointer to a local
variable; the embedding therefore returns the value to store through `par`
(`some v` exactly when the C writes `v` to `*par`) and lets each caller
perform that store.  The parent entry is never inside the recycled page
(pages are owned by exactly one entry of a different table, spec section 3),
so performing the caller-side store after the page is zeroed is equivalent
to the C order. -/
def tbl8_recycle (dp : TrieTbl) (tbl8_idx : Nat) : TrieTbl × Option Nat :=
  let nh := dp.tbl8 (tbl8_idx * TRIE_TBL8_GRP_NUM_ENT)
  if nh &&& TRIE_EXT_ENT = TRIE_EXT_ENT then (dp, none)
  else if tbl8_all_eq dp tbl8_idx nh then
    let dp1 := write_to_dp dp (.t8 (tbl8_idx * TRIE_TBL8_GRP_NUM_ENT)) 0 TRIE_TBL8_GRP_NUM_ENT
    (tbl8_put dp1 tbl8_idx, some nh)
  else (dp, none)

/-- Index computation `get_idx(ip, prev_idx, bytes, first_byte)`
(trie.c:223): big-endian combination of `bytes` address bytes starting at
`first_byte`, offset into the table selected by `prev_idx`. -/
def get_idx (ip : IpAddr) (prev_idx bytes first_byte : Nat) : Nat :=
  let idx := (List.range bytes).foldl
    (fun a k =>
      if first_byte + k < 16 then
        a ||| (ipGet ip (first_byte + k) <<< ((bytes - 1 - k) * 8))
      else a) 0
  prev_idx * TRIE_TBL8_GRP_NUM_ENT + idx

/-- Edge selector of `write_edge` (trie.c:29, `enum edge`). -/
inductive Edge where
  | LEDGE
  | REDGE
deriving DecidableEq

/-- Loop body of `build_common_root` (trie.c:276): one iteration per byte
level from `i = 3` up to `common_bytes`, descending through (or creating)
EXT entries.  `n` counts the remaining iterations of the C `for` loop,
`cur24` records whether `cur_tbl` is still `tbl24`.  Returns the updated
table, the final `prev_idx`, the final table selector and the return code. -/
def bcr_go (ip : IpAddr) : Nat → TrieTbl → Nat → Nat → Nat → Bool → TrieTbl × Nat × Bool × Int
  | 0, dp, _, _, prev_idx, cur24 => (dp, prev_idx, cur24, 0)
  | n+1, dp, i, j, prev_idx, cur24 =>
    let idx := get_idx ip prev_idx (i - j) j
    let val := if cur24 then dp.tbl24 idx else dp.tbl8 idx
    let p : TblPtr := if cur24 then .t24 idx else .t8 idx
    if val &&& TRIE_EXT_ENT ≠ TRIE_EXT_ENT then
      match tbl8_alloc dp val with
      | (dp1, none) => (dp1, prev_idx, cur24, -ENOSPC)
      | (dp1, some newIdx) =>
        let dp2 := write_to_dp dp1 p ((newIdx <<< 1) ||| TRIE_EXT_ENT) 1
        bcr_go ip n dp2 (i+1) i newIdx false
    else bcr_go ip n dp (i+1) i (val >>> 1) false

/-- Common-prefix descent `build_common_root(dp, ip, common_bytes, tbl)`
(trie.c:276): returns the table, a pointer to the start of the common root
table, and the return code (0 or `-ENOSPC`). -/
def build_common_root (dp : TrieTbl) (ip : IpAddr) (common_bytes : Nat) :
    TrieTbl × TblPtr × Int :=
  match bcr_go ip (common_bytes - 2) dp 3 0 0 true with
  | (dp1, prev_idx, cur24, ret) =>
    let root : TblPtr :=
      if cur24 then .t24 (prev_idx * TRIE_TBL8_GRP_NUM_ENT)
      else .t8 (prev_idx * TRIE_TBL8_GRP_NUM_ENT)
    (dp1, root, ret)

/-- Edge descent `write_edge(dp, ip_part, next_hop, len, edge, ent)`
(trie.c:305).  At `len = 0` the entry gets the terminal `next_hop << 1`;
otherwise the entry is made EXT (allocating when terminal), the tail is
written recursively, the half-open side of the page is filled, the page is
offered for recycling (which may rewrite the local `val`, trie.c:335), and
finally `val` is stored to `ent`. -/
def write_edge (dp : TrieTbl) (ip_part : List Nat) (next_hop : Nat) :
    Nat → Edge → TblPtr → TrieTbl × Int
  | 0, _, ent => (write_to_dp dp ent (next_hop <<< 1) 1, 0)
  | l+1, edge, ent =>
    let val := get_val_by_p dp ent
    match (if val &&& TRIE_EXT_ENT = TRIE_EXT_ENT then (dp, some (val >>> 1), val)
           else match tbl8_alloc dp val with
             | (dp1, none) => (dp1, none, val)
             | (dp1, some idx) => (dp1, some idx, (idx <<< 1) ||| TRIE_EXT_ENT)) with
    | (dp1, none, _) => (dp1, -ENOSPC)
    | (dp1, some tbl8_idx, val1) =>
      let p : TblPtr := .t8 (tbl8_idx * TRIE_TBL8_GRP_NUM_ENT + ipGet ip_part 0)
      match write_edge dp1 (ip_part.drop 1) next_hop l edge p with
      | (dp2, ret) =>
        if ret < 0 then (dp2, ret)
        else
          let dp3 :=
            match edge with
            | .LEDGE => write_to_dp dp2 (ptrAdd p 1) (next_hop <<< 1)
                (255 - ipGet ip_part 0)
            | .REDGE => write_to_dp dp2 (.t8 (tbl8_idx * TRIE_TBL8_GRP_NUM_ENT))
                (next_hop <<< 1) (ipGet ip_part 0)
          match tbl8_recycle dp3 tbl8_idx with
          | (dp4, parOpt) => (write_to_dp dp4 ent (parOpt.getD val1) 1, ret)

/-- The in-place decrement producing `redge` from `r` in `install_to_dp`
(trie.c:357-363): `for (i = 15; i >= 0; i--) { redge[i]--; if (redge[i] !=
0xff) break; }`.  The fuel argument is the current loop index plus one. -/
def dec128_go : List Nat → Nat → List Nat
  | ip, 0 => ip
  | ip, k+1 =>
    let b := (ipGet ip k + 255) % 256
    let ip2 := ip.set k b
    if b ≠ 255 then ip2 else dec128_go ip2 k

/-- Decrement a 16-byte big-endian value by 1 with borrow (trie.c:357). -/
def dec128 (r : List Nat) : List Nat := dec128_go r 16

/-- The common-byte count loop of `install_to_dp` (trie.c:365): first index
in 0..14 where `ledge` and `redge` differ, or 15. -/
def cc_go (a b : List Nat) : Nat → Nat → Nat
  | 0, i => i
  | f+1, i => if ipGet a i ≠ ipGet b i then i else cc_go a b f (i + 1)

/-- First differing byte of two addresses, capped at 15 (trie.c:365). -/
def countCommon (a b : List Nat) : Nat := cc_go a b 15 0

/-- The trailing-byte scans of `install_to_dp` (trie.c:376, trie.c:383):
walk `i` down from 15 while `i > stop` and byte `i` equals `v`; the result
is the C loop's final `i`. -/
def scan_down (ip : List Nat) (stop v : Nat) : Nat → Nat
  | 0 => 0
  | i+1 =>
    if i + 1 ≤ stop then i + 1
    else if ipGet ip (i+1) ≠ v then i + 1
    else scan_down ip stop v i

/-- Root-path recycling `recycle_root_path(dp, ip_part, common_tbl8, prev)`
(trie.c:259): descend the EXT chain for `common_tbl8` further levels, then
recycle each page on unwind.  The parent store of `tbl8_recycle` is applied
to `prev` here, as in the C. -/
def recycle_root_path : TrieTbl → List Nat → Nat → TblPtr → TrieTbl
  | dp, _, 0, prev =>
    let val := get_val_by_p dp prev
    if val &&& TRIE_EXT_ENT ≠ TRIE_EXT_ENT then dp
    else
      match tbl8_recycle dp (val >>> 1) with
      | (dp1, none) => dp1
      | (dp1, some v) => write_to_dp dp1 prev v 1
  | dp, ip_part, c+1, prev =>
    let val := get_val_by_p dp prev
    if val &&& TRIE_EXT_ENT ≠ TRIE_EXT_ENT then dp
    else
      let p : TblPtr := .t8 ((val >>> 1) * TRIE_TBL8_GRP_NUM_ENT + ipGet ip_part 0)
      let dp1 := recycle_root_path dp (ip_part.drop 1) c p
      match tbl8_recycle dp1 (val >>> 1) with
      | (dp2, none) => dp2
      | (dp2, some v) => write_to_dp dp2 prev v 1

/-- Range installation `install_to_dp(dp, ledge, r, next_hop)` (trie.c:346):
rewrite the trie so every key in `[ledge, r)` maps to `next_hop`, assuming
no longer prefix covers the range.  Mirrors the C statement for statement:
right edge decrement, common-byte count, common-root descent, edge length
scans, left edge, middle fill, right edge, root-path recycling. -/
def install_to_dp (dp : TrieTbl) (ledge r : IpAddr) (next_hop : Nat) : TrieTbl × Int :=
  let redge := dec128 r
  let common_bytes := countCommon ledge redge
  match build_common_root dp ledge common_bytes with
  | (dp1, root, ret) =>
    if ret ≠ 0 then (dp1, ret)
    else
      let first_tbl8_byte := max common_bytes 3
      let li := scan_down ledge first_tbl8_byte 0 15
      let llen := li - first_tbl8_byte + (if common_bytes < 3 then 1 else 0)
      let ri := scan_down redge first_tbl8_byte 255 15
      let rlen := ri - first_tbl8_byte + (if common_bytes < 3 then 1 else 0)
      let first_byte_idx := if common_bytes < 3 then 0 else common_bytes
      let first_idx_len := if common_bytes < 3 then 3 else 1
      let left_idx := get_idx ledge 0 first_idx_len first_byte_idx
      let right_idx := get_idx redge 0 first_idx_len first_byte_idx
      let tailFrom := first_tbl8_byte + (if common_bytes < 3 then 0 else 1)
      match write_edge dp1 (ledge.drop tailFrom) next_hop llen .LEDGE
          (ptrAdd root left_idx) with
      | (dp2, ret2) =>
        if ret2 < 0 then (dp2, ret2)
        else
          let dp3 :=
            if right_idx > left_idx + 1 then
              write_to_dp dp2 (ptrAdd root (left_idx + 1)) (next_hop <<< 1)
                (right_idx - (left_idx + 1))
            else dp2
          match write_edge dp3 (redge.drop tailFrom) next_hop rlen .REDGE
              (ptrAdd root right_idx) with
          | (dp4, ret3) =>
            if ret3 < 0 then (dp4, ret3)
            else
              let common_tbl8 := if common_bytes < 3 then 0 else common_bytes - 2
              let ent := TblPtr.t24 (get_idx ledge 0 3 0)
              (recycle_root_path dp4 (ledge.drop 3) common_tbl8 ent, 0)

/-- The byte-position loop of `get_nxt_net` (trie.c:424): starting from
`part_depth = depth`, `i = 0`, subtract 8 and advance `i` while
`part_depth > 8`.  Fuel 16 covers every `depth ≤ 128`. -/
def gnn_loop : Nat → Nat → Nat → Nat × Nat
  | 0, part, i => (i, part)
  | f+1, part, i => if part > 8 then gnn_loop f (part - 8) (i + 1) else (i, part)

/-- The carry loop of `get_nxt_net` (trie.c:430): `while (i > 0) {
ip[--i] += 1; if (ip[i] != 0) break; }`. -/
def gnn_carry : List Nat → Nat → List Nat
  | ip, 0 => ip
  | ip, i+1 =>
    let b := (ipGet ip i + 1) % 256
    let ip2 := ip.set i b
    if b ≠ 0 then ip2 else gnn_carry ip2 i

/-- Advance an address past a prefix range: `get_nxt_net(ip, depth)`
(trie.c:417) adds `1 << (8 - part_depth)` to byte `i` (a uint8, so the
store wraps modulo 256) and ripples the carry upward when the byte wrapped. -/
def get_nxt_net (ip : IpAddr) (depth : Nat) : IpAddr :=
  let r := gnn_loop 16 depth 0
  let i := r.1
  let part_depth := r.2
  let prev := ipGet ip i
  let b := (prev + (1 <<< (8 - part_depth))) % 256
  let ip2 := ip.set i b
  if b < prev then gnn_carry ip2 i else ip2

/-- Modelled from the spec: `get_msk_part(depth, byte)` from
`private_fib6.h` (missing from the provided sources): byte `i` of the
`/depth` netmask has `min(max(depth − 8i, 0), 8)` leading bits set. -/
def get_msk_part (depth i : Nat) : Nat :=
  let part := min (depth - 8 * i) 8
  (0xFF00 >>> part) % 256

/-- The masking loop of `trie_modify` (trie.c:504):
`ip_masked[i] = ip[i] & get_msk_part(depth, i)` for the 16 bytes. -/
def maskIp (ip : IpAddr) (depth : Nat) : IpAddr :=
  (List.range 16).map (fun i => ipGet ip i &&& get_msk_part depth i)

/-- A RIB node: masked prefix address, depth, next-hop.  Modelled from the
spec (section 1: the RIB is an external collaborator that stores the
authoritative prefix set). -/
structure RibNode where
  ip : IpAddr
  depth : Nat
  nh : Nat
deriving DecidableEq

/-- The routing information base: the set of installed prefix nodes. -/
abbrev Rib := List RibNode

/-- Modelled from the spec: `cne_rib6_lookup_exact(rib, ip, depth)` — the
exact-prefix lookup the RIB exposes; the address is masked to `depth` bits
before comparison (as the real rib6 does internally). -/
def rib6_lookup_exact (rib : Rib) (ip : IpAddr) (depth : Nat) : Option RibNode :=
  rib.find? (fun n => n.ip == maskIp ip depth && n.depth == depth)

/-- Modelled from the spec: `cne_rib6_insert(rib, ip, depth)` followed by
`cne_rib6_set_nh(node, nh)` (trie.c:536-539): add the node for the masked
prefix with the given next-hop.  Allocation failure is not modelled. -/
def rib6_insert (rib : Rib) (ip : IpAddr) (depth nh : Nat) : Rib :=
  ⟨maskIp ip depth, depth, nh⟩ :: rib

/-- Modelled from the spec: `cne_rib6_set_nh` on the node found by an exact
lookup of `(ip, depth)`. -/
def rib6_set_nh (rib : Rib) (ip : IpAddr) (depth nh : Nat) : Rib :=
  rib.map (fun n => if n.ip == ip && n.depth == depth then { n with nh := nh } else n)

/-- Modelled from the spec: `cne_rib6_remove(rib, ip, depth)`; the address
is masked to `depth` bits before the exact match (as the real rib6 does). -/
def rib6_remove (rib : Rib) (ip : IpAddr) (depth : Nat) : Rib :=
  rib.filter (fun n => !(n.ip == maskIp ip depth && n.depth == depth))

/-- Modelled from the spec: `cne_rib6_lookup(rib, ip)` — longest-prefix
lookup of a full address among the RIB nodes. -/
def rib6_lookup (rib : Rib) (ip : IpAddr) : Option RibNode :=
  rib.foldl
    (fun best n =>
      if maskIp ip n.depth == n.ip then
        match best with
        | none => some n
        | some b => if n.depth > b.depth then some n else some b
      else best) none

/-- Modelled from the spec: `cne_rib6_lookup_parent(node)` — the longest
strictly shorter prefix in the RIB covering the node's prefix. -/
def rib6_lookup_parent (rib : Rib) (node : RibNode) : Option RibNode :=
  rib.foldl
    (fun best n =>
      if n.depth < node.depth && maskIp node.ip n.depth == n.ip then
        match best with
        | none => some n
        | some b => if n.depth > b.depth then some n else some b
      else best) none

/-- Address order used to present the covered-prefix iterator
deterministically (the rib6 tree yields nodes in address order). -/
def ipLtB : List Nat → List Nat → Bool
  | [], [] => false
  | [], _ :: _ => true
  | _ :: _, [] => false
  | a :: as, b :: bs => if a < b then true else if b < a then false else ipLtB as bs

/-- Node order for the covered iterator: by address, then by depth. -/
def nodeLtB (n m : RibNode) : Bool :=
  ipLtB n.ip m.ip || (n.ip == m.ip && n.depth < m.depth)

/-- Insertion into a sorted node list (by `nodeLtB`). -/
def ribSortInsert (n : RibNode) : List RibNode → List RibNode
  | [] => [n]
  | m :: ms => if nodeLtB n m then n :: m :: ms else m :: ribSortInsert n ms

/-- Modelled from the spec: the sequence of nodes produced by repeatedly
calling `cne_rib6_get_nxt(rib, ip, depth, last, CNE_RIB6_GET_NXT_COVER)`
(trie.c:453, trie.c:508): every node whose prefix is strictly deeper than
`depth` and covered by `ip/depth`, in address-then-depth order.  (The
strictness matches the rib6 iterator, which compares `tmp->depth > depth`;
`modify_dp` additionally guards against equal depths at trie.c:456.) -/
def rib6_get_nxt_cover_list (rib : Rib) (ip : IpAddr) (depth : Nat) : List RibNode :=
  (rib.filter (fun n => depth < n.depth && maskIp n.ip depth == maskIp ip depth)).foldr
    ribSortInsert []

/-- The do/while loop of `modify_dp` (trie.c:452-477), folded over the
covered-prefix iterator sequence: carve `[ip, ip + 2^(128-depth))` into
maximal sub-ranges not shadowed by a deeper prefix and install each. -/
def modify_dp_loop (ip : IpAddr) (depth next_hop : Nat) :
    TrieTbl → IpAddr → List RibNode → TrieTbl × Int
  | dp, ledge, [] =>
    let redge := get_nxt_net ip depth
    if ledge == redge then (dp, 0)
    else install_to_dp dp ledge redge next_hop
  | dp, ledge, c :: rest =>
    if c.depth == depth then modify_dp_loop ip depth next_hop dp ledge rest
    else
      let redge := c.ip
      if ledge == redge then
        modify_dp_loop ip depth next_hop dp (get_nxt_net ledge c.depth) rest
      else
        match install_to_dp dp ledge redge next_hop with
        | (dp1, ret) =>
          if ret ≠ 0 then (dp1, ret)
          else modify_dp_loop ip depth next_hop dp1 (get_nxt_net redge c.depth) rest

/-- Dataplane update driver `modify_dp(dp, rib, ip, depth, next_hop)`
(trie.c:438): validates the next-hop against the entry width, then walks
the covered prefixes installing the unshadowed sub-ranges. -/
def modify_dp (dp : TrieTbl) (rib : Rib) (ip : IpAddr) (depth next_hop : Nat) :
    TrieTbl × Int :=
  if next_hop > get_max_nh dp.nh_sz then (dp, -EINVAL)
  else modify_dp_loop ip depth next_hop dp ip (rib6_get_nxt_cover_list rib ip depth)

/-- `CNE_ALIGN_FLOOR(v, 8)` for the depth computations of trie.c:508. -/
def alignFloor8 (v : Nat) : Nat := v - v % 8

/-- `CNE_ALIGN_CEIL(v, 8)` for the depth computations of trie.c:516. -/
def alignCeil8 (v : Nat) : Nat := alignFloor8 (v + 7)

/-- 2^32, the modulus of the uint32 fields of `struct cne_trie_tbl`. -/
def U32 : Nat := 2 ^ 32

/-- uint32 subtraction with wrap (`dp->number_tbl8s - depth_diff`,
`dp->rsvd_tbl8s -= depth_diff`). -/
def u32sub (a b : Nat) : Nat := (a % U32 + U32 - b % U32) % U32

/-- The `depth_diff` computation of `trie_modify` (trie.c:507-519): only
for `depth > 24` and only when no covered node strictly deeper than
`CNE_ALIGN_FLOOR(depth, 8)` exists; `parent_depth` comes from a
longest-prefix lookup of the unmasked address, floored at 24.  The
subtraction is performed in uint8 arithmetic as in the C, then shifted. -/
def trie_depth_diff (rib : Rib) (ip ip_masked : IpAddr) (depth : Nat) : Nat :=
  if 24 < depth then
    match (rib6_get_nxt_cover_list rib ip_masked (alignFloor8 depth)).head? with
    | some _ => 0
    | none =>
      let parent_depth :=
        match rib6_lookup rib ip with
        | some n => max n.depth 24
        | none => 24
      ((alignCeil8 depth + 256 - alignCeil8 parent_depth) % 256) >>> 3
  else 0

/-- Operation selector of `trie_modify` (`CNE_FIB6_ADD` / `CNE_FIB6_DEL`). -/
inductive FibOp where
  | ADD
  | DEL
deriving DecidableEq

/-- A FIB handle: the dataplane table plus the RIB
(`cne_fib6_get_dp` / `cne_fib6_get_rib`, trie.c:499-501). -/
structure Fib where
  dp : TrieTbl
  rib : Rib

/-- The shared install/rollback tail of the ADD branch (trie.c:546-553):
run `modify_dp`; on failure remove the freshly inserted node and propagate
the error; on success account the reserved pages. -/
def trie_add_install (dp : TrieTbl) (rib1 : Rib) (ip_masked : IpAddr)
    (depth next_hop depth_diff : Nat) : Option Fib × Int :=
  match modify_dp dp rib1 ip_masked depth next_hop with
  | (dp1, ret) =>
    if ret ≠ 0 then (some ⟨dp1, rib6_remove rib1 ip_masked depth⟩, ret)
    else
      (some ⟨{ dp1 with rsvd_tbl8s := (dp1.rsvd_tbl8s + depth_diff) % U32 }, rib1⟩, 0)

/-- ADD branch when the exact node already exists (trie.c:523-531): equal
next-hop is a no-op; otherwise re-install and update the node's next-hop
only when the re-install succeeded — and return 0 in both cases
(trie.c:530 returns 0 unconditionally). -/
def trie_add_existing (dp : TrieTbl) (rib : Rib) (ip_masked : IpAddr)
    (depth next_hop : Nat) (node : RibNode) : Option Fib × Int :=
  if node.nh == next_hop then (some ⟨dp, rib⟩, 0)
  else
    match modify_dp dp rib ip_masked depth next_hop with
    | (dp1, ret) =>
      let rib1 := if ret == 0 then rib6_set_nh rib ip_masked depth next_hop else rib
      (some ⟨dp1, rib1⟩, 0)

/-- ADD branch past the admission gate (trie.c:536-553): insert the node,
short-circuit when the RIB parent already has this next-hop, otherwise
install. -/
def trie_add_insert (dp : TrieTbl) (rib : Rib) (ip_masked : IpAddr)
    (depth next_hop depth_diff : Nat) : Option Fib × Int :=
  let rib1 := rib6_insert rib ip_masked depth next_hop
  let node : RibNode := ⟨maskIp ip_masked depth, depth, next_hop⟩
  match rib6_lookup_parent rib1 node with
  | some parent =>
    if parent.nh == next_hop then (some ⟨dp, rib1⟩, 0)
    else trie_add_install dp rib1 ip_masked depth next_hop depth_diff
  | none => trie_add_install dp rib1 ip_masked depth next_hop depth_diff

/-- The success tail of the DEL branch (trie.c:569-572): remove the RIB
node (the C passes the unmasked `ip`; rib6 masks internally) and subtract
`depth_diff` from the reservation counter (uint32 arithmetic). -/
def trie_del_finish (dp1 : TrieTbl) (rib : Rib) (ip : IpAddr)
    (depth depth_diff : Nat) : Option Fib × Int :=
  (some ⟨{ dp1 with rsvd_tbl8s := u32sub dp1.rsvd_tbl8s depth_diff }, rib6_remove rib ip depth⟩, 0)

/-- DEL branch when the exact node exists (trie.c:558-572): rewrite the
range with the parent's next-hop (skipped when equal) or with `def_nh`
when no parent, then remove the node and account the pages. -/
def trie_del_node (dp : TrieTbl) (rib : Rib) (ip ip_masked : IpAddr)
    (depth depth_diff : Nat) (node : RibNode) : Option Fib × Int :=
  match rib6_lookup_parent rib node with
  | some parent =>
    if parent.nh ≠ node.nh then
      match modify_dp dp rib ip_masked depth parent.nh with
      | (dp1, ret) =>
        if ret ≠ 0 then (some ⟨dp1, rib⟩, ret)
        else trie_del_finish dp1 rib ip depth depth_diff
    else trie_del_finish dp rib ip depth depth_diff
  | none =>
    match modify_dp dp rib ip_masked depth dp.def_nh with
    | (dp1, ret) =>
      if ret ≠ 0 then (some ⟨dp1, rib⟩, ret)
      else trie_del_finish dp1 rib ip depth depth_diff

/-- The mutation entry point `trie_modify(fib, ip, depth, next_hop, op)`
(trie.c:482): validation, masking, `depth_diff` pre-computation, exact
node lookup, then the ADD/DEL switch with the `-ENOSPC` admission gate
(trie.c:533, in uint32 arithmetic: `rsvd_tbl8s >= number_tbl8s -
depth_diff`). -/
def trie_modify (fib : Option Fib) (ip : Option IpAddr) (depth next_hop : Nat)
    (op : FibOp) : Option Fib × Int :=
  match fib, ip with
  | some f, some a =>
    if depth > 128 then (some f, -EINVAL)
    else
      let ip_masked := maskIp a depth
      let depth_diff := trie_depth_diff f.rib a ip_masked depth
      match rib6_lookup_exact f.rib ip_masked depth, op with
      | some node, .ADD => trie_add_existing f.dp f.rib ip_masked depth next_hop node
      | none, .ADD =>
        if 24 < depth ∧ f.dp.rsvd_tbl8s ≥ u32sub f.dp.number_tbl8s depth_diff then
          (some f, -ENOSPC)
        else trie_add_insert f.dp f.rib ip_masked depth next_hop depth_diff
      | some node, .DEL => trie_del_node f.dp f.rib a ip_masked depth depth_diff node
      | none, .DEL => (some f, -ENOENT)
  | _, _ => (fib, -EINVAL)

/-- Table creation `trie_create(name, conf)` (trie.c:579): validate the
configuration, zero-allocate the arrays (calloc), initialise every tbl24
entry to `def_nh << 1` and the pool to the identity permutation. -/
def trie_create (name : Option String) (nh_sz num_tbl8 def_nh : Nat) :
    Option TrieTbl :=
  if name = none ∨ nh_sz < 1 ∨ 3 < nh_sz ∨ get_max_nh nh_sz < num_tbl8 ∨
      num_tbl8 = 0 ∨ get_max_nh nh_sz < def_nh then none
  else
    some (tbl8_pool_init
      { nh_sz := nh_sz, def_nh := def_nh, number_tbl8s := num_tbl8,
        tbl24 := writeRange (fun _ => 0) 0 ((def_nh <<< 1) % entMod nh_sz)
          TRIE_TBL24_NUM_ENT,
        tbl8 := fun _ => 0, tbl8_pool := fun _ => 0, tbl8_pool_pos := 0,
        rsvd_tbl8s := 0 })

/-- Modelled from the spec: the loop of the scalar lookup routine
(section 6, "index tbl24 by the first 3 bytes; while the entry is EXT,
jump to the tbl8 page it names and index by the next byte; on a non-EXT
entry, report `entry >> 1`"); the implementations (`cne_trie_lookup_bulk_*`)
are outside the provided sources. -/
def trie_lookup_go (dp : TrieTbl) : Nat → List Nat → Nat
  | ent, [] => ent >>> 1
  | ent, b :: rest =>
    if ent &&& TRIE_EXT_ENT = TRIE_EXT_ENT then
      trie_lookup_go dp (dp.tbl8 ((ent >>> 1) * TRIE_TBL8_GRP_NUM_ENT + b)) rest
    else ent >>> 1

/-- Modelled from the spec: single-key lookup per the section 6 contract. -/
def trie_lookup (dp : TrieTbl) (ip : IpAddr) : Nat :=
  trie_lookup_go dp (dp.tbl24 (get_idx ip 0 3 0)) (ip.drop 3)

/-- The reference function of claim C1 and spec section 8, written from the
claim's words: `lpm(R, k)` is the next-hop of the longest prefix in `R`
matching `k` (first `depth` bits equal), or `def_nh` when none matches. -/
def rib_lpm (rib : Rib) (def_nh : Nat) (k : IpAddr) : Nat :=
  let best := rib.foldl
    (fun acc n =>
      if maskIp k n.depth == n.ip then
        match acc with
        | none => some n
        | some b => if n.depth > b.depth then some n else some b
      else acc) (none : Option RibNode)
  match best with
  | some n => n.nh
  | none => def_nh

/-- Outcome of running a C routine against a possibly-null handle: either a
normal result or a fault from dereferencing the null pointer. -/
inductive CRun (α : Type) where
  | ok (a : α)
  | nullDeref
deriving DecidableEq

/-- Lookup-implementation tags returned by the selector (the function
pointers `cne_trie_lookup_bulk_2b/4b/8b` of trie.c:31-44). -/
inductive LookupFnTag where
  | scalar2b
  | scalar4b
  | scalar8b
deriving DecidableEq

/-- `enum cne_fib6_lookup_type` as used by `trie_get_lookup_fn`. -/
inductive LookupType where
  | SCALAR
  | VECTOR_AVX512
  | DEFAULT
deriving DecidableEq

/-- `get_scalar_fn(nh_sz)` (trie.c:31): per-width scalar routine, null for
an unrecognized width. -/
def get_scalar_fn (nh_sz : Nat) : Option LookupFnTag :=
  if nh_sz = 1 then some .scalar2b
  else if nh_sz = 2 then some .scalar4b
  else if nh_sz = 3 then some .scalar8b
  else none

/-- `get_vector_fn(nh_sz)` (trie.c:46): without AVX-512 support compiled in
(`CC_TRIE_AVX512_SUPPORT` undefined) the function returns null. -/
def get_vector_fn (_nh_sz : Nat) : Option LookupFnTag := none

/-- `trie_get_lookup_fn(p, type)` (trie.c:69): checks the handle for null
explicitly (trie.c:76) and returns null instead of faulting. -/
def trie_get_lookup_fn (p : Option TrieTbl) (t : LookupType) :
    CRun (Option LookupFnTag) :=
  match p with
  | none => .ok none
  | some dp =>
    match t with
    | .SCALAR => .ok (get_scalar_fn dp.nh_sz)
    | .VECTOR_AVX512 => .ok (get_vector_fn dp.nh_sz)
    | .DEFAULT =>
      .ok (match get_vector_fn dp.nh_sz with
        | some f => some f
        | none => get_scalar_fn dp.nh_sz)

/-- `trie_free(p)` (trie.c:624): `free(dp->tbl8_pool)` reads a field of
`*p` before any null check, so a null handle faults; a non-null handle's
three frees succeed. -/
def trie_free (p : Option TrieTbl) : CRun Unit :=
  match p with
  | none => .nullDeref
  | some _ => .ok ()

set_option maxRecDepth 100000

/-! Concrete states used by the claim theorems: a handful of small tables
and modify runs, all evaluable by `decide`. -/

/-- Placeholder table, used only as the (never taken) default of
`Option.getD` below. -/
def dpDummy : TrieTbl :=
  ⟨1, 0, 1, fun _ => 0, fun _ => 0, fun _ => 0, 0, 0⟩

/-- The all-zero address `::`. -/
def ipZero : IpAddr := List.replicate 16 0

/-- The address `::1`. -/
def ipOne : IpAddr := List.replicate 15 0 ++ [1]

/-- The address `2001:db8::`. -/
def ipDb8 : IpAddr := [0x20, 0x01, 0x0d, 0xb8] ++ List.replicate 12 0

/-- Unwrap a FIB that is known to be present. -/
def unwrapFib (x : Option Fib) (d : Fib) : Fib := x.getD d

/-- A fresh FIB: 4-byte entries, 4 tbl8 pages, default next-hop 0. -/
def fibEmpty4 : Fib := ⟨(trie_create (some "trie") 2 4 0).getD dpDummy, []⟩

/-- Run: add the default route `::/0 → 0x99` to `fibEmpty4`. -/
def addDefaultRoute : Option Fib × Int :=
  trie_modify (some fibEmpty4) (some ipZero) 0 0x99 .ADD

/-- State after `addDefaultRoute`. -/
def fibDefault : Fib := unwrapFib addDefaultRoute.1 fibEmpty4

/-- Run: delete the default route again. -/
def delDefaultRoute : Option Fib × Int :=
  trie_modify (some fibDefault) (some ipZero) 0 0 .DEL

/-- State after `delDefaultRoute`. -/
def fibDefaultDel : Fib := unwrapFib delDefaultRoute.1 fibEmpty4

/-- A fresh FIB with 2 tbl8 pages. -/
def fibEmpty2 : Fib := ⟨(trie_create (some "trie") 2 2 0).getD dpDummy, []⟩

/-- Run: add `2001:db8::/32 → 0x11` to `fibEmpty2`. -/
def addDb8 : Option Fib × Int := trie_modify (some fibEmpty2) (some ipDb8) 32 0x11 .ADD

/-- State after `addDb8`. -/
def fibDb8 : Fib := unwrapFib addDb8.1 fibEmpty2

/-- Run: delete `2001:db8::/32` again. -/
def delDb8 : Option Fib × Int := trie_modify (some fibDb8) (some ipDb8) 32 0 .DEL

/-- State after `delDb8`. -/
def fibDb8Del : Fib := unwrapFib delDb8.1 fibEmpty2

/-- A fresh FIB with a single tbl8 page. -/
def fibEmpty1 : Fib := ⟨(trie_create (some "trie") 2 1 0).getD dpDummy, []⟩

/-- Run: add `2001:db8::/32 → 0x11` when only one page exists (so
`rsvd_tbl8s + depth_diff = 0 + 1 = 1 = num_tbl8`). -/
def addDb8one : Option Fib × Int := trie_modify (some fibEmpty1) (some ipDb8) 32 0x11 .ADD

/-- Run: re-add `2001:db8::/32` with the out-of-range next-hop `2^31`. -/
def addDb8again : Option Fib × Int :=
  trie_modify (some fibDb8) (some ipDb8) 32 (2 ^ 31) .ADD

/-- Run: delete a missing prefix passing the out-of-range next-hop `2^31`. -/
def delHugeNh : Option Fib × Int :=
  trie_modify (some fibEmpty4) (some ipDb8) 32 (2 ^ 31) .DEL

/-- A table whose page 0 is uniform (all 256 entries hold the terminal 6),
used to instantiate C8_recycle. -/
def dpUniform : TrieTbl :=
  ⟨2, 0, 1, fun _ => 0, fun j => if j < 256 then 6 else 0, fun _ => 0, 1, 0⟩

/-- A 16-byte address exercising a two-byte carry in `get_nxt_net`
(bytes 3 and 4 are 0xff). -/
def ipC9 : IpAddr := [0, 0, 0, 0xff, 0xff] ++ List.replicate 11 0

/-- Claim C1 (the failing run): a successful `modify` (ADD of `::/0 → 0x99`
on a fresh table, returning 0) produces RIB state `R = [::/0 → 0x99]`, for
which `lpm(R, ::1) = 0x99`, yet the section-6 lookup of `::1` still returns
`def_nh = 0` — the lookup does not return the next-hop of the longest
matching prefix.  (Cause: for depth 0, `get_nxt_net` leaves `redge` equal
to `ledge`, so `modify_dp` at trie.c:471 installs nothing.) -/
theorem C1_failing_run :
    addDefaultRoute.2 = 0 ∧
    fibDefault.rib = [⟨maskIp ipZero 0, 0, 0x99⟩] ∧
    fibDefault.dp.def_nh = 0 ∧
    rib_lpm fibDefault.rib fibDefault.dp.def_nh ipOne = 0x99 ∧
    trie_lookup fibDefault.dp ipOne = 0 := by decide

/-- Claim C3 (the failing run): after a successful ADD of `::/0` with
next-hop 0x99 (different from the current cover `def_nh = 0`), lookup of
key `::` returns 0 rather than 0x99 as the claim requires; the subsequent
DEL of `::/0` succeeds and lookup still returns `def_nh`. -/
theorem C3_failing_run :
    addDefaultRoute.2 = 0 ∧
    trie_lookup fibDefault.dp ipZero = 0 ∧
    ¬ trie_lookup fibDefault.dp ipZero = 0x99 ∧
    delDefaultRoute.2 = 0 ∧
    trie_lookup fibDefaultDel.dp ipZero = 0 := by decide

/-- Claim C5 (the failing run): from a fresh table (4-byte entries, 2
pages, `def_nh = 0`, `rsvd_tbl8s = 0`), a successful ADD of
`2001:db8::/32 → 0x11` followed by a successful DEL of the same prefix
restores the tbl24 slot of the prefix, the first two tbl8 pages and the
pool cursor, but leaves `rsvd_tbl8s = 1 ≠ 0`: the delete recomputes
`depth_diff` with the node still present in the RIB and obtains 0
(trie.c:507-519), so the reservation taken by the add is never released
and the state is not bit-identical to the pre-add state. -/
theorem C5_failing_run :
    addDb8.2 = 0 ∧ delDb8.2 = 0 ∧
    fibEmpty2.dp.rsvd_tbl8s = 0 ∧ fibDb8.dp.rsvd_tbl8s = 1 ∧
    fibDb8Del.dp.rsvd_tbl8s = 1 ∧
    trie_depth_diff fibDb8.rib ipDb8 (maskIp ipDb8 32) 32 = 0 ∧
    fibDb8Del.dp.tbl8_pool_pos = fibEmpty2.dp.tbl8_pool_pos ∧
    fibDb8Del.dp.tbl24 (get_idx ipDb8 0 3 0) = fibEmpty2.dp.tbl24 (get_idx ipDb8 0 3 0) ∧
    ((List.range 512).all fun j => fibDb8Del.dp.tbl8 j == fibEmpty2.dp.tbl8 j) = true ∧
    fibDb8Del.rib = [] := by decide

/-- Claim C2 counterexample: with `num_tbl8 = 1` and `rsvd_tbl8s = 0`,
adding `2001:db8::/32` has `depth_diff = 1`, so `rsvd_tbl8s + depth_diff`
equals `num_tbl8` exactly — the claim says this add succeeds (returns 0),
but the gate `rsvd_tbl8s >= number_tbl8s - depth_diff` (trie.c:533) fires
and the call returns `-ENOSPC`. -/
theorem C2_counterexample :
    trie_depth_diff fibEmpty1.rib ipDb8 (maskIp ipDb8 32) 32 = 1 ∧
    fibEmpty1.dp.rsvd_tbl8s + 1 = fibEmpty1.dp.number_tbl8s ∧
    addDb8one.2 = -ENOSPC ∧ ¬ addDb8one.2 = 0 := by decide

/-- Claim C4 counterexample: the exact node `2001:db8::/32 → 0x11` exists;
an ADD of the same prefix with `next_hop = 2^31` (exceeding `max_nh` for
4-byte entries) makes the dataplane re-install fail with `-EINVAL`, yet
`trie_modify` returns 0 (trie.c:530) — not a negative error code as the
claim states — and the RIB is left unchanged. -/
theorem C4_counterexample :
    rib6_lookup_exact fibDb8.rib (maskIp ipDb8 32) 32 =
      some ⟨maskIp ipDb8 32, 32, 0x11⟩ ∧
    (modify_dp fibDb8.dp fibDb8.rib (maskIp ipDb8 32) 32 (2 ^ 31)).2 = -EINVAL ∧
    addDb8again.2 = 0 ∧
    (unwrapFib addDb8again.1 fibEmpty2).rib = fibDb8.rib := by decide

/-- Claim C7 counterexample: a DEL with `next_hop = 2^31 > max_nh` on an
empty FIB returns `-ENOENT`, not `-EINVAL`: the next-hop bound is checked
only inside `modify_dp` (trie.c:448), which this path never reaches. -/
theorem C7_counterexample :
    get_max_nh fibEmpty4.dp.nh_sz < 2 ^ 31 ∧
    delHugeNh.2 = -ENOENT ∧ ¬ delHugeNh.2 = -EINVAL := by decide

/-- Claim C10: `trie_free` dereferences its argument with no null check, so
the input `p = NULL` faults, whereas for a non-null handle the frees
succeed; by contrast `trie_get_lookup_fn` checks for null (trie.c:76) and
returns null for every lookup type. -/
theorem C10_null_free :
    trie_free none = CRun.nullDeref ∧
    (∀ dp : TrieTbl, trie_free (some dp) = CRun.ok ()) ∧
    trie_get_lookup_fn none .SCALAR = CRun.ok none ∧
    trie_get_lookup_fn none .VECTOR_AVX512 = CRun.ok none ∧
    trie_get_lookup_fn none .DEFAULT = CRun.ok none :=
  ⟨rfl, fun _ => rfl, rfl, rfl, rfl⟩

/-- Claim C2 (amended): for an ADD of a new prefix (no exact node) with
`depth > 24`: when `rsvd_tbl8s >= number_tbl8s - depth_diff` (uint32
arithmetic, i.e. `rsvd_tbl8s + depth_diff` would reach or exceed
`num_tbl8`), the call returns `-ENOSPC` without inserting the RIB node or
touching the packed tables; when `rsvd_tbl8s < number_tbl8s - depth_diff`,
the gate admits the add and the call proceeds to the RIB insertion and
installation path. -/
theorem C2_gate (f : Fib) (a : IpAddr) (depth next_hop : Nat)
    (hd : depth ≤ 128) (h24 : 24 < depth)
    (hnode : rib6_lookup_exact f.rib (maskIp a depth) depth = none) :
    (f.dp.rsvd_tbl8s ≥
        u32sub f.dp.number_tbl8s (trie_depth_diff f.rib a (maskIp a depth) depth) →
      trie_modify (some f) (some a) depth next_hop .ADD = (some f, -ENOSPC)) ∧
    (f.dp.rsvd_tbl8s <
        u32sub f.dp.number_tbl8s (trie_depth_diff f.rib a (maskIp a depth) depth) →
      trie_modify (some f) (some a) depth next_hop .ADD =
        trie_add_insert f.dp f.rib (maskIp a depth) depth next_hop
          (trie_depth_diff f.rib a (maskIp a depth) depth)) := by
  constructor
  · intro hge
    simp only [trie_modify]
    rw [if_neg (show ¬ depth > 128 by omega)]
    simp only [hnode]
    rw [if_pos ⟨h24, hge⟩]
  · intro hlt
    simp only [trie_modify]
    rw [if_neg (show ¬ depth > 128 by omega)]
    simp only [hnode]
    rw [if_neg (fun hc => absurd hc.2 (Nat.not_le.mpr hlt))]

/-- Witness for C2_gate: the `fibEmpty1` instance (one page, depth 32,
depth_diff 1) satisfies the hypotheses and the gate side fires. -/
theorem C2_gate_witness :
    (32 : Nat) ≤ 128 ∧ 24 < 32 ∧
    rib6_lookup_exact fibEmpty1.rib (maskIp ipDb8 32) 32 = none ∧
    fibEmpty1.dp.rsvd_tbl8s ≥
      u32sub fibEmpty1.dp.number_tbl8s
        (trie_depth_diff fibEmpty1.rib ipDb8 (maskIp ipDb8 32) 32) ∧
    trie_modify (some fibEmpty1) (some ipDb8) 32 0x11 .ADD = (some fibEmpty1, -ENOSPC) :=
  ⟨by decide, by decide, by decide, by decide,
    (C2_gate fibEmpty1 ipDb8 32 0x11 (by decide) (by decide) (by decide)).1 (by decide)⟩

/-- Claim C4 (amended): for an ADD whose exact RIB node exists with a
different next-hop, `trie_modify` runs the dataplane re-install and
returns 0 whether or not the re-install succeeded (trie.c:530); the RIB
node's next-hop is updated exactly when the re-install returned 0. -/
theorem C4_existing (f : Fib) (a : IpAddr) (depth next_hop : Nat) (node : RibNode)
    (hd : depth ≤ 128)
    (hnode : rib6_lookup_exact f.rib (maskIp a depth) depth = some node)
    (hne : node.nh ≠ next_hop) :
    trie_modify (some f) (some a) depth next_hop .ADD =
      (some ⟨(modify_dp f.dp f.rib (maskIp a depth) depth next_hop).1,
        if (modify_dp f.dp f.rib (maskIp a depth) depth next_hop).2 = 0 then
          rib6_set_nh f.rib (maskIp a depth) depth next_hop
        else f.rib⟩, 0) := by
  simp only [trie_modify]
  rw [if_neg (show ¬ depth > 128 by omega)]
  simp only [hnode]
  simp only [trie_add_existing]
  have hb : (node.nh == next_hop) = false := beq_eq_false_iff_ne.mpr hne
  rw [hb]
  rcases hmd : modify_dp f.dp f.rib (maskIp a depth) depth next_hop with ⟨dp1, ret⟩
  by_cases hr : ret = 0
  · simp [hr]
  · simp [hr]

/-- Witness for C4_existing at the `fibDb8` instance with an out-of-range
replacement next-hop. -/
theorem C4_existing_witness :
    rib6_lookup_exact fibDb8.rib (maskIp ipDb8 32) 32 =
      some ⟨maskIp ipDb8 32, 32, 0x11⟩ ∧
    (RibNode.mk (maskIp ipDb8 32) 32 0x11).nh ≠ 2 ^ 31 ∧
    trie_modify (some fibDb8) (some ipDb8) 32 (2 ^ 31) .ADD =
      (some ⟨(modify_dp fibDb8.dp fibDb8.rib (maskIp ipDb8 32) 32 (2 ^ 31)).1,
        if (modify_dp fibDb8.dp fibDb8.rib (maskIp ipDb8 32) 32 (2 ^ 31)).2 = 0 then
          rib6_set_nh fibDb8.rib (maskIp ipDb8 32) 32 (2 ^ 31)
        else fibDb8.rib⟩, 0) :=
  ⟨by decide, by decide,
    C4_existing fibDb8 ipDb8 32 (2 ^ 31) ⟨maskIp ipDb8 32, 32, 0x11⟩
      (by decide) (by decide) (by decide)⟩

/-- Claim C6: for every DEL with valid arguments: when no exact RIB node
exists, the call returns `-ENOENT` and changes nothing; otherwise the
prefix's range is rewritten through `modify_dp` with the RIB parent's
next-hop when a parent exists (the rewrite is skipped when that equals the
deleted node's next-hop) or with `def_nh` when none; on rewrite success the
RIB node is removed and `rsvd_tbl8s` is decremented by `depth_diff`
(`trie_del_finish`). -/
theorem C6_delete (f : Fib) (a : IpAddr) (depth next_hop : Nat)
    (hd : depth ≤ 128) :
    (rib6_lookup_exact f.rib (maskIp a depth) depth = none →
      trie_modify (some f) (some a) depth next_hop .DEL = (some f, -ENOENT)) ∧
    (∀ node parent,
      rib6_lookup_exact f.rib (maskIp a depth) depth = some node →
      rib6_lookup_parent f.rib node = some parent →
      parent.nh = node.nh →
      trie_modify (some f) (some a) depth next_hop .DEL =
        trie_del_finish f.dp f.rib a depth
          (trie_depth_diff f.rib a (maskIp a depth) depth)) ∧
    (∀ node parent,
      rib6_lookup_exact f.rib (maskIp a depth) depth = some node →
      rib6_lookup_parent f.rib node = some parent →
      parent.nh ≠ node.nh →
      trie_modify (some f) (some a) depth next_hop .DEL =
        (if (modify_dp f.dp f.rib (maskIp a depth) depth parent.nh).2 ≠ 0 then
          (some ⟨(modify_dp f.dp f.rib (maskIp a depth) depth parent.nh).1, f.rib⟩,
            (modify_dp f.dp f.rib (maskIp a depth) depth parent.nh).2)
        else
          trie_del_finish (modify_dp f.dp f.rib (maskIp a depth) depth parent.nh).1
            f.rib a depth (trie_depth_diff f.rib a (maskIp a depth) depth))) ∧
    (∀ node,
      rib6_lookup_exact f.rib (maskIp a depth) depth = some node →
      rib6_lookup_parent f.rib node = none →
      trie_modify (some f) (some a) depth next_hop .DEL =
        (if (modify_dp f.dp f.rib (maskIp a depth) depth f.dp.def_nh).2 ≠ 0 then
          (some ⟨(modify_dp f.dp f.rib (maskIp a depth) depth f.dp.def_nh).1, f.rib⟩,
            (modify_dp f.dp f.rib (maskIp a depth) depth f.dp.def_nh).2)
        else
          trie_del_finish (modify_dp f.dp f.rib (maskIp a depth) depth f.dp.def_nh).1
            f.rib a depth (trie_depth_diff f.rib a (maskIp a depth) depth))) := by
  refine ⟨fun hnone => ?_, fun node parent hn hp heq => ?_,
    fun node parent hn hp hne => ?_, fun node hn hp => ?_⟩
  · simp only [trie_modify]
    rw [if_neg (show ¬ depth > 128 by omega)]
    simp only [hnone]
  · simp only [trie_modify]
    rw [if_neg (show ¬ depth > 128 by omega)]
    simp only [hn, trie_del_node, hp]
    rw [if_neg (by simp [heq])]
  · simp only [trie_modify]
    rw [if_neg (show ¬ depth > 128 by omega)]
    simp only [hn, trie_del_node, hp]
    rw [if_pos hne]
  · simp only [trie_modify]
    rw [if_neg (show ¬ depth > 128 by omega)]
    simp only [hn, trie_del_node, hp]

/-- Witness for C6_delete: deleting a missing prefix from `fibEmpty4`
returns `-ENOENT` with the FIB unchanged. -/
theorem C6_delete_witness :
    rib6_lookup_exact fibEmpty4.rib (maskIp ipDb8 32) 32 = none ∧
    trie_modify (some fibEmpty4) (some ipDb8) 32 0 .DEL = (some fibEmpty4, -ENOENT) :=
  ⟨by decide, (C6_delete fibEmpty4 ipDb8 32 0 (by decide)).1 (by decide)⟩

/-- Claim C7 (amended): `trie_modify` returns `-EINVAL` for a null FIB
handle, a null address, or `depth > 128`, for either op; the bound
`next_hop ≤ max_nh(nh_sz)` is enforced only inside `modify_dp`
(trie.c:448), i.e. only on the paths that perform a dataplane rewrite with
that next-hop — other paths may return other codes (see the
counterexample). -/
theorem C7_validation :
    (∀ ip depth next_hop op, trie_modify none ip depth next_hop op = (none, -EINVAL)) ∧
    (∀ f depth next_hop op, trie_modify (some f) none depth next_hop op = (some f, -EINVAL)) ∧
    (∀ f a depth next_hop op, 128 < depth →
      trie_modify (some f) (some a) depth next_hop op = (some f, -EINVAL)) ∧
    (∀ dp rib a depth next_hop, get_max_nh dp.nh_sz < next_hop →
      modify_dp dp rib a depth next_hop = (dp, -EINVAL)) := by
  refine ⟨fun ip depth next_hop op => ?_, fun f depth next_hop op => rfl,
    fun f a depth next_hop op h => ?_, fun dp rib a depth next_hop h => ?_⟩
  · cases ip <;> rfl
  · simp only [trie_modify]
    rw [if_pos h]
  · simp only [modify_dp]
    rw [if_pos h]

/-- Witness for C7_validation: a depth-129 call and an out-of-range
next-hop passed to `modify_dp` both yield `-EINVAL`. -/
theorem C7_validation_witness :
    (128 < 129 ∧
      trie_modify (some fibEmpty4) (some ipZero) 129 0 .ADD = (some fibEmpty4, -EINVAL)) ∧
    (get_max_nh fibEmpty4.dp.nh_sz < 2 ^ 31 ∧
      modify_dp fibEmpty4.dp fibEmpty4.rib ipZero 32 (2 ^ 31) = (fibEmpty4.dp, -EINVAL)) :=
  ⟨⟨by decide, C7_validation.2.2.1 fibEmpty4 ipZero 129 0 .ADD (by decide)⟩,
    ⟨by decide, C7_validation.2.2.2 fibEmpty4.dp fibEmpty4.rib ipZero 32 (2 ^ 31) (by decide)⟩⟩

/-- Claim C8: `tbl8_recycle` on a page index: if entry 0 of the page has
the EXT bit set, the tables and pool are left unchanged (and no parent
store happens); if entry 0 is non-EXT and all 256 entries equal entry 0,
that value is handed to the caller for the parent entry, all 256 entries
of the page are set to 0, and the page index is pushed back onto the free
stack with `tbl8_pool_pos` decreasing by 1; in every other case nothing
changes. -/
theorem C8_recycle (dp : TrieTbl) (idx : Nat) :
    (dp.tbl8 (idx * TRIE_TBL8_GRP_NUM_ENT) &&& TRIE_EXT_ENT = TRIE_EXT_ENT →
      tbl8_recycle dp idx = (dp, none)) ∧
    (dp.tbl8 (idx * TRIE_TBL8_GRP_NUM_ENT) &&& TRIE_EXT_ENT ≠ TRIE_EXT_ENT →
      tbl8_all_eq dp idx (dp.tbl8 (idx * TRIE_TBL8_GRP_NUM_ENT)) = true →
      0 < dp.tbl8_pool_pos →
      (tbl8_recycle dp idx).2 = some (dp.tbl8 (idx * TRIE_TBL8_GRP_NUM_ENT)) ∧
      (∀ j, idx * TRIE_TBL8_GRP_NUM_ENT ≤ j →
          j < idx * TRIE_TBL8_GRP_NUM_ENT + TRIE_TBL8_GRP_NUM_ENT →
        (tbl8_recycle dp idx).1.tbl8 j = 0) ∧
      (∀ j, ¬ (idx * TRIE_TBL8_GRP_NUM_ENT ≤ j ∧
          j < idx * TRIE_TBL8_GRP_NUM_ENT + TRIE_TBL8_GRP_NUM_ENT) →
        (tbl8_recycle dp idx).1.tbl8 j = dp.tbl8 j) ∧
      (tbl8_recycle dp idx).1.tbl24 = dp.tbl24 ∧
      (tbl8_recycle dp idx).1.tbl8_pool_pos + 1 = dp.tbl8_pool_pos ∧
      (tbl8_recycle dp idx).1.tbl8_pool (dp.tbl8_pool_pos - 1) = idx ∧
      (∀ j, j ≠ dp.tbl8_pool_pos - 1 →
        (tbl8_recycle dp idx).1.tbl8_pool j = dp.tbl8_pool j)) ∧
    (dp.tbl8 (idx * TRIE_TBL8_GRP_NUM_ENT) &&& TRIE_EXT_ENT ≠ TRIE_EXT_ENT →
      tbl8_all_eq dp idx (dp.tbl8 (idx * TRIE_TBL8_GRP_NUM_ENT)) = false →
      tbl8_recycle dp idx = (dp, none)) := by
  refine ⟨fun hext => ?_, fun hext hall hpos => ?_, fun hext hall => ?_⟩
  · simp only [tbl8_recycle]
    rw [if_pos hext]
  · simp only [tbl8_recycle]
    rw [if_neg hext, if_pos hall]
    refine ⟨rfl, fun j h1 h2 => ?_, fun j hout => ?_, rfl, by
      simp only [tbl8_put, write_to_dp]
      omega, by simp [tbl8_put, write_to_dp], fun j hj => ?_⟩
    · simp only [tbl8_put, write_to_dp, writeRange]
      rw [if_pos ⟨h1, h2⟩]
      simp [entMod]
    · simp only [tbl8_put, write_to_dp, writeRange]
      rw [if_neg hout]
    · simp only [tbl8_put, write_to_dp]
      rw [if_neg hj]
  · simp only [tbl8_recycle]
    rw [if_neg hext, hall]
    simp

/-- Witness for C8_recycle at `dpUniform`, page 0: the uniform branch
collapses the page, returns the terminal for the parent entry and pushes
index 0 back on the stack. -/
theorem C8_recycle_witness :
    (dpUniform.tbl8 (0 * TRIE_TBL8_GRP_NUM_ENT) &&& TRIE_EXT_ENT ≠ TRIE_EXT_ENT) ∧
    tbl8_all_eq dpUniform 0 (dpUniform.tbl8 (0 * TRIE_TBL8_GRP_NUM_ENT)) = true ∧
    0 < dpUniform.tbl8_pool_pos ∧
    (tbl8_recycle dpUniform 0).2 = some (dpUniform.tbl8 (0 * TRIE_TBL8_GRP_NUM_ENT)) ∧
    (tbl8_recycle dpUniform 0).1.tbl8_pool_pos + 1 = dpUniform.tbl8_pool_pos ∧
    (tbl8_recycle dpUniform 0).1.tbl8_pool (dpUniform.tbl8_pool_pos - 1) = 0 :=
  ⟨by decide, by decide, by decide,
    ((C8_recycle dpUniform 0).2.1 (by decide) (by decide) (by decide)).1,
    ((C8_recycle dpUniform 0).2.1 (by decide) (by decide) (by decide)).2.2.2.2.1,
    ((C8_recycle dpUniform 0).2.1 (by decide) (by decide) (by decide)).2.2.2.2.2.1⟩

/-- Value of a foldl with a running accumulator: positional base-256
reading. -/
theorem toNatBE_foldl (L : List Nat) (a : Nat) :
    L.foldl (fun x b => x * 256 + b) a = a * 256 ^ L.length + toNatBE L := by
  induction L generalizing a with
  | nil => simp [toNatBE]
  | cons b t ih =>
    show List.foldl _ (a * 256 + b) t = a * 256 ^ (t.length + 1) + toNatBE (b :: t)
    rw [ih (a * 256 + b)]
    have hbt : toNatBE (b :: t) = b * 256 ^ t.length + toNatBE t := by
      show List.foldl _ (0 * 256 + b) t = _
      rw [ih (0 * 256 + b)]
      ring_nf
    rw [hbt]
    ring

/-- Head/tail expansion of the big-endian value. -/
theorem toNatBE_cons (b : Nat) (t : List Nat) :
    toNatBE (b :: t) = b * 256 ^ t.length + toNatBE t := by
  show List.foldl _ (0 * 256 + b) t = _
  rw [toNatBE_foldl]
  ring_nf

/-- Concatenation splits the big-endian value. -/
theorem toNatBE_append (xs ys : List Nat) :
    toNatBE (xs ++ ys) = toNatBE xs * 256 ^ ys.length + toNatBE ys := by
  show List.foldl _ 0 (xs ++ ys) = _
  rw [List.foldl_append, toNatBE_foldl]
  rfl

/-- A byte list reads below 256^length. -/
theorem toNatBE_lt (L : List Nat) (h : ∀ b ∈ L, b < 256) :
    toNatBE L < 256 ^ L.length := by
  induction L with
  | nil => simp [toNatBE]
  | cons b t ih =>
    rw [toNatBE_cons]
    have hb : b < 256 := h b (List.mem_cons_self b t)
    have ht : toNatBE t < 256 ^ t.length := ih (fun x hx => h x (List.mem_cons_of_mem b hx))
    calc b * 256 ^ t.length + toNatBE t
        ≤ 255 * 256 ^ t.length + toNatBE t := by
          have : b ≤ 255 := by omega
          exact Nat.add_le_add_right (Nat.mul_le_mul_right _ this) _
      _ < 255 * 256 ^ t.length + 256 ^ t.length := by omega
      _ = 256 ^ (t.length + 1) := by rw [Nat.pow_succ]; ring

/-- Writing back the element it holds leaves a list unchanged. -/
theorem list_set_self (L : List Nat) (i : Nat) (h : i < L.length) :
    L.set i L[i] = L := by
  rw [List.set_eq_take_cons_drop _ h, List.getElem_cons_drop, List.take_append_drop]

/-- The big-endian value of a singleton. -/
theorem toNatBE_singleton (x : Nat) : toNatBE [x] = x := by
  show 0 * 256 + x = x
  omega

/-- Setting index `i` does not disturb the first `i` elements. -/
theorem take_set_eq (L : List Nat) (i v : Nat) (h : i < L.length) :
    (L.set i v).take i = L.take i := by
  rw [List.set_eq_take_cons_drop _ h]
  have hlen : (L.take i).length = i := by rw [List.length_take]; omega
  have h2 := List.take_left (L.take i) (v :: L.drop (i+1))
  rw [hlen] at h2
  exact h2

/-- Dropping `i` elements of a list set at `i` exposes the new value. -/
theorem drop_set_eq (L : List Nat) (i v : Nat) (h : i < L.length) :
    (L.set i v).drop i = v :: L.drop (i+1) := by
  rw [List.set_eq_take_cons_drop _ h]
  have hlen : (L.take i).length = i := by rw [List.length_take]; omega
  have h2 := List.drop_left (L.take i) (v :: L.drop (i+1))
  rw [hlen] at h2
  exact h2

/-- The first `i+1` elements of a list set at `i`. -/
theorem take_succ_set (L : List Nat) (i v : Nat) (h : i < L.length) :
    (L.set i v).take (i+1) = L.take i ++ [v] := by
  rw [List.set_eq_take_cons_drop _ h]
  have hlen : (L.take i).length = i := by rw [List.length_take]; omega
  have h2 := @List.take_append _ (L.take i) (v :: L.drop (i+1)) 1
  rw [hlen] at h2
  rw [h2]
  simp

/-- The first `i+1` elements of a list, split at `i`. -/
theorem take_succ_self (L : List Nat) (i : Nat) (h : i < L.length) :
    L.take (i+1) = L.take i ++ [L[i]] := by
  rw [List.take_add L i 1]
  congr 1
  rw [← List.getElem_cons_drop L i h]
  rfl

/-- Bound on the value of a prefix of a byte list. -/
theorem take_bound (L : List Nat) (i : Nat) (h : i ≤ L.length)
    (hb : ∀ b ∈ L, b < 256) : toNatBE (L.take i) < 256 ^ i := by
  have hlen : (L.take i).length = i := by rw [List.length_take]; omega
  have := toNatBE_lt (L.take i) (fun b hm => hb b (List.mem_of_mem_take hm))
  rw [hlen] at this
  exact this

/-- Correctness of the ripple-carry loop of `get_nxt_net` (trie.c:430):
`gnn_carry L i` leaves the suffix from `i` unchanged and increments the
first `i` bytes, read as a big-endian number, by 1 modulo `256^i`. -/
theorem gnn_carry_spec : ∀ (i : Nat) (L : List Nat), i ≤ L.length → (∀ b ∈ L, b < 256) →
    (gnn_carry L i).length = L.length ∧
    (gnn_carry L i).drop i = L.drop i ∧
    (∀ b ∈ gnn_carry L i, b < 256) ∧
    toNatBE ((gnn_carry L i).take i) = (toNatBE (L.take i) + 1) % 256 ^ i := by
  intro i
  induction i with
  | zero =>
    intro L h hb
    exact ⟨rfl, rfl, hb, by simp [toNatBE]⟩
  | succ i ih =>
    intro L h hb
    have hi : i < L.length := by omega
    have hv : ipGet L i = L[i] := List.getD_eq_getElem L 0 hi
    have hvlt : L[i] < 256 := hb _ (List.getElem_mem hi)
    have hP : toNatBE (L.take i) < 256 ^ i := take_bound L i (by omega) hb
    by_cases h255 : L[i] = 255
    · have hred : gnn_carry L (i+1) = gnn_carry (L.set i 0) i := by
        simp only [gnn_carry, hv, h255]
        norm_num
      have hset : ∀ b ∈ L.set i 0, b < 256 := by
        intro b hm
        rcases List.mem_or_eq_of_mem_set hm with hm2 | hm2
        · exact hb b hm2
        · omega
      obtain ⟨r1, r2, r3, r4⟩ := ih (L.set i 0) (by rw [List.length_set]; omega) hset
      rw [hred]
      have hdropset : (L.set i 0).drop i = 0 :: L.drop (i+1) := drop_set_eq L i 0 hi
      have htakeset : (L.set i 0).take i = L.take i := take_set_eq L i 0 hi
      have hdropR : (gnn_carry (L.set i 0) i).drop i = 0 :: L.drop (i+1) := by
        rw [r2, hdropset]
      refine ⟨by rw [r1, List.length_set], ?_, r3, ?_⟩
      · have := List.drop_drop 1 i (gnn_carry (L.set i 0) i)
        rw [hdropR] at this
        rw [← this]
        simp
      · have htk : (gnn_carry (L.set i 0) i).take (i+1) =
            (gnn_carry (L.set i 0) i).take i ++ [0] := by
          rw [List.take_add _ i 1, hdropR]
          simp
        rw [htk, toNatBE_append, r4, htakeset, toNatBE_singleton]
        rw [take_succ_self L i hi, toNatBE_append, toNatBE_singleton, h255]
        have hexp : (256 : Nat) ^ (i + 1) = 256 ^ i * 256 := by rw [Nat.pow_succ]
        have hmm := Nat.mul_mod_mul_right 256 (toNatBE (L.take i) + 1) (256 ^ i)
        have harith : toNatBE (L.take i) * 256 ^ [(255 : Nat)].length + 255 + 1 =
            (toNatBE (L.take i) + 1) * 256 := by
          simp
          ring
        rw [harith, hexp, hmm]
        simp
    · have hb1 : (ipGet L i + 1) % 256 = L[i] + 1 := by
        rw [hv]
        exact Nat.mod_eq_of_lt (by omega)
      have hred : gnn_carry L (i+1) = L.set i (L[i] + 1) := by
        simp only [gnn_carry, hb1]
        norm_num
      rw [hred]
      have hset : ∀ b ∈ L.set i (L[i] + 1), b < 256 := by
        intro b hm
        rcases List.mem_or_eq_of_mem_set hm with hm2 | hm2
        · exact hb b hm2
        · omega
      refine ⟨List.length_set L i _, ?_, hset, ?_⟩
      · have hds : (L.set i (L[i] + 1)).drop i = (L[i] + 1) :: L.drop (i+1) :=
          drop_set_eq L i _ hi
        have := List.drop_drop 1 i (L.set i (L[i] + 1))
        rw [hds] at this
        rw [← this]
        simp
      · rw [take_succ_set L i _ hi, toNatBE_append, toNatBE_singleton]
        rw [take_succ_self L i hi, toNatBE_append, toNatBE_singleton]
        have hexp : (256 : Nat) ^ (i + 1) = 256 ^ i * 256 := by rw [Nat.pow_succ]
        have hlt : toNatBE (L.take i) * 256 ^ [L[i]].length + L[i] + 1 < 256 ^ (i+1) := by
          simp only [List.length_cons, List.length_nil]
          rw [hexp]
          have : (256 : Nat) ^ 1 = 256 := by norm_num
          rw [this]
          omega
        rw [Nat.mod_eq_of_lt hlt]
        simp
        ring

/-- The byte-position loop of `get_nxt_net` lands on byte `i` with a
residual depth `part` such that `8·i + part = depth`, for all depths the
API admits. -/
theorem gnn_loop_facts : ∀ d, d < 129 →
    8 * (gnn_loop 16 d 0).1 + (gnn_loop 16 d 0).2 = d ∧
    (gnn_loop 16 d 0).1 ≤ 15 ∧ (gnn_loop 16 d 0).2 ≤ 8 ∧
    (d ≠ 0 → 1 ≤ (gnn_loop 16 d 0).2) := by decide

/-- 256^16 is 2^128. -/
theorem pow256_16 : (256 : Nat) ^ 16 = 2 ^ 128 := by norm_num

/-- Claim C9: for every 16-byte big-endian value `ip` and every depth with
`0 ≤ depth ≤ 128`, `get_nxt_net(ip, depth)` replaces `ip` with
`(ip + 2^(128 − depth)) mod 2^128`, carrying across byte boundaries. -/
theorem C9_get_nxt_net (ip : IpAddr) (depth : Nat) (hlen : ip.length = 16)
    (hb : ∀ b ∈ ip, b < 256) (hd : depth ≤ 128) :
    toNatBE (get_nxt_net ip depth) = (toNatBE ip + 2 ^ (128 - depth)) % 2 ^ 128 := by
  obtain ⟨hsum, hi15, hp8, hp1⟩ := gnn_loop_facts depth (by omega)
  rcases hgl : gnn_loop 16 depth 0 with ⟨i, part⟩
  rw [hgl] at hsum hi15 hp8 hp1
  dsimp only at hsum hi15 hp8 hp1
  have hi : i < ip.length := by omega
  have hv : ipGet ip i = ip[i] := List.getD_eq_getElem ip 0 hi
  have hvlt : ip[i] < 256 := hb _ (List.getElem_mem hi)
  have hc : (1 : Nat) <<< (8 - part) = 2 ^ (8 - part) := by
    rw [Nat.shiftLeft_eq]
    ring
  have hNlt : toNatBE ip < 2 ^ 128 := by
    have := toNatBE_lt ip hb
    rw [hlen, pow256_16] at this
    exact this
  have hgnn : get_nxt_net ip depth =
      (if (ipGet ip i + 1 <<< (8 - part)) % 256 < ipGet ip i then
        gnn_carry (ip.set i ((ipGet ip i + 1 <<< (8 - part)) % 256)) i
      else ip.set i ((ipGet ip i + 1 <<< (8 - part)) % 256)) := by
    simp only [get_nxt_net, hgl]
  by_cases hd0 : depth = 0
  · have hip : i = 0 := by omega
    have hpp : part = 0 := by omega
    subst hd0 hip hpp
    have hb0 : (ipGet ip 0 + 1 <<< (8 - 0)) % 256 = ipGet ip 0 := by
      rw [hc, hv]
      show (ip[0] + 256) % 256 = ip[0]
      rw [Nat.add_mod_right]
      exact Nat.mod_eq_of_lt hvlt
    rw [hgnn, hb0, if_neg (by omega), hv, list_set_self ip 0 hi]
    show toNatBE ip = (toNatBE ip + 2 ^ 128) % 2 ^ 128
    rw [Nat.add_mod_right]
    exact (Nat.mod_eq_of_lt hNlt).symm
  · have hp1' : 1 ≤ part := hp1 hd0
    have hcle : 2 ^ (8 - part) ≤ 128 := by
      calc (2 : Nat) ^ (8 - part) ≤ 2 ^ 7 := Nat.pow_le_pow_right (by omega) (by omega)
        _ = 128 := by norm_num
    have hcpos : 1 ≤ 2 ^ (8 - part) := Nat.one_le_two_pow
    set P := toNatBE (ip.take i) with hPdef
    set S := toNatBE (ip.drop (i + 1)) with hSdef
    set w : Nat := 256 ^ (15 - i) with hwdef
    set W : Nat := 256 ^ (16 - i) with hWdef
    set X : Nat := 256 ^ i with hXdef
    have hW : W = w * 256 := by
      rw [hWdef, hwdef]
      have : 16 - i = (15 - i) + 1 := by omega
      rw [this, Nat.pow_succ]
    have hXW : X * W = 2 ^ 128 := by
      rw [hXdef, hWdef, ← Nat.pow_add]
      have : i + (16 - i) = 16 := by omega
      rw [this, pow256_16]
    have hA : 2 ^ (128 - depth) = 2 ^ (8 - part) * w := by
      rw [hwdef]
      have h256 : (256 : Nat) ^ (15 - i) = 2 ^ (8 * (15 - i)) := by
        have : (256 : Nat) = 2 ^ 8 := by norm_num
        rw [this, ← Nat.pow_mul]
      rw [h256, ← Nat.pow_add]
      congr 1
      omega
    have hdroplen : (ip.drop (i + 1)).length = 15 - i := by
      rw [List.length_drop, hlen]
      omega
    have hN : toNatBE ip = P * W + (ip[i] * w + S) := by
      conv_lhs => rw [← List.take_append_drop i ip]
      rw [toNatBE_append]
      congr 1
      · congr 1
        rw [hWdef, List.length_drop, hlen]
      · rw [← List.getElem_cons_drop ip i hi, toNatBE_cons, hdroplen]
    set c : Nat := 2 ^ (8 - part) with hcdef
    set v : Nat := ip[i] with hvdef
    have hsetlist : ∀ u, (ip.set i u) = ip.take i ++ u :: ip.drop (i+1) :=
      fun u => List.set_eq_take_cons_drop u hi
    have hsetval : ∀ u, toNatBE (ip.set i u) = P * W + (u * w + S) := by
      intro u
      rw [hsetlist u, toNatBE_append]
      congr 1
      · congr 1
        rw [hWdef, List.length_cons, hdroplen]
        congr 1
        omega
      · rw [toNatBE_cons, hdroplen]
    by_cases hwrap : v + c < 256
    · have hbv : (ipGet ip i + 1 <<< (8 - part)) % 256 = v + c := by
        rw [hc, hv]
        exact Nat.mod_eq_of_lt hwrap
      rw [hgnn, hbv, hv, if_neg (by omega)]
      have hsetlt : toNatBE (ip.set i (v + c)) < 2 ^ 128 := by
        have hbnd : ∀ b ∈ ip.set i (v + c), b < 256 := by
          intro b hm
          rcases List.mem_or_eq_of_mem_set hm with hm2 | hm2
          · exact hb b hm2
          · omega
        have := toNatBE_lt _ hbnd
        rw [List.length_set, hlen, pow256_16] at this
        exact this
      rw [hsetval (v + c), hA, hN]
      have harith : P * W + (v * w + S) + c * w = P * W + ((v + c) * w + S) := by
        rw [Nat.add_mul]
        ring
      rw [harith]
      rw [hsetval (v + c)] at hsetlt
      exact (Nat.mod_eq_of_lt hsetlt).symm
    · have hge : 256 ≤ v + c := by omega
      have hvc512 : v + c < 512 := by omega
      have hbv : (ipGet ip i + 1 <<< (8 - part)) % 256 = v + c - 256 := by
        rw [hc, hv]
        rw [Nat.mod_eq_sub_mod hge]
        exact Nat.mod_eq_of_lt (by omega)
      rw [hgnn, hbv, hv, if_pos (by omega)]
      set b : Nat := v + c - 256 with hbdef
      have hblt : b < 256 := by omega
      have hbnd2 : ∀ x ∈ ip.set i b, x < 256 := by
        intro x hm
        rcases List.mem_or_eq_of_mem_set hm with hm2 | hm2
        · exact hb x hm2
        · omega
      obtain ⟨r1, r2, r3, r4⟩ :=
        gnn_carry_spec i (ip.set i b) (by rw [List.length_set]; omega) hbnd2
      have hRlen : (gnn_carry (ip.set i b) i).length = 16 := by
        rw [r1, List.length_set, hlen]
      have hRdrop : (gnn_carry (ip.set i b) i).drop i = b :: ip.drop (i + 1) := by
        rw [r2, drop_set_eq ip i b hi]
      have hRtake : toNatBE ((gnn_carry (ip.set i b) i).take i) = (P + 1) % X := by
        rw [r4, take_set_eq ip i b hi, hXdef]
      have hRval : toNatBE (gnn_carry (ip.set i b) i) =
          (P + 1) % X * W + (b * w + S) := by
        conv_lhs => rw [← List.take_append_drop i (gnn_carry (ip.set i b) i)]
        rw [toNatBE_append, hRtake, hRdrop]
        congr 1
        · congr 1
          rw [hWdef]
          congr 1
          have := List.length_drop i (gnn_carry (ip.set i b) i)
          rw [hRdrop, hRlen] at this
          have hlc : (b :: ip.drop (i + 1)).length = 16 - i := this
          omega
        · rw [toNatBE_cons, hdroplen]
      have hRlt : toNatBE (gnn_carry (ip.set i b) i) < 2 ^ 128 := by
        have := toNatBE_lt _ r3
        rw [hRlen, pow256_16] at this
        exact this
      have hmodeq : Nat.ModEq (2 ^ 128) (toNatBE (gnn_carry (ip.set i b) i))
          (toNatBE ip + 2 ^ (128 - depth)) := by
        rw [hRval, hN, hA]
        have h1 : Nat.ModEq (X * W) ((P + 1) % X * W) ((P + 1) * W) :=
          Nat.ModEq.mul_right' W (Nat.mod_modEq (P + 1) X)
        rw [hXW] at h1
        have h2 := h1.add_right (b * w + S)
        have harith2 : (P + 1) * W + (b * w + S) = P * W + (v * w + S) + c * w := by
         rw [hW]
         have hb256 : b + 256 = v + c := by omega
         calc (P + 1) * (w * 256) + (b * w + S)
             = P * (w * 256) + (b + 256) * w + S := by ring
           _ = P * (w * 256) + (v + c) * w + S := by rw [hb256]
           _ = P * (w * 256) + (v * w + S) + c * w := by ring
        rw [harith2] at h2
        exact h2
      calc toNatBE (gnn_carry (ip.set i b) i)
          = toNatBE (gnn_carry (ip.set i b) i) % 2 ^ 128 := (Nat.mod_eq_of_lt hRlt).symm
        _ = (toNatBE ip + 2 ^ (128 - depth)) % 2 ^ 128 := hmodeq

/-- Witness for C9_get_nxt_net: the address with 0xff at bytes 3 and 4,
advanced past a /40 prefix, exercising the two-byte ripple carry. -/
theorem C9_get_nxt_net_witness :
    ipC9.length = 16 ∧ (∀ b ∈ ipC9, b < 256) ∧ (40 : Nat) ≤ 128 ∧
    toNatBE (get_nxt_net ipC9 40) = (toNatBE ipC9 + 2 ^ (128 - 40)) % 2 ^ 128 :=
  ⟨by decide, by decide, by decide,
    C9_get_nxt_net ipC9 40 (by decide) (by decide) (by decide)⟩
